import Mathlib

/-!
Verification of the flow-paste Privacy Shield + Streaming Request Orchestrator.

Part 1 embeds the Pinia store `src/stores/app.ts` (the request orchestrator
visible to the UI) as pure state-transition functions over `AppState`.
Asynchronous Tauri command invocations are modelled by passing their outcome
(`Except`/`InvokeOutcome`) as an explicit argument; an `await` on a promise
that never settles means the statements after the `await` never execute, which
is modelled by the `InvokeOutcome.hang` case returning the state unchanged.

Part 2 models the Rust-side privacy shield (`mask_pii` / `restore_pii`), which
is not part of the frontend sources, from the specification, and proves the
round-trip property for it.
-/

/-- PanelMode from `src/types/index.ts`: 'idle' | 'preview' | 'processing' | 'result'. -/
inductive PanelMode where
  | idle | preview | processing | result
deriving DecidableEq, Repr

/-- AIProvider from `src/types/index.ts`: 'OpenAI' | 'Ollama'. -/
inductive AIProvider where
  | OpenAI | Ollama
deriving DecidableEq, Repr

/-- Theme from `src/types/index.ts` AppConfig.theme: 'system' | 'light' | 'dark'. -/
inductive Theme where
  | system | light | dark
deriving DecidableEq, Repr

/-- PrivacyStatus from `src/types/index.ts`: discriminated by
`type: 'local' | 'cloud-safe' | 'cloud-masked'`, the latter carrying
`maskedCount`.  (`localMode` models the literal 'local'; `local` is a Lean
keyword.) -/
inductive PrivacyStatus where
  | localMode
  | cloudSafe
  | cloudMasked (maskedCount : Nat)
deriving DecidableEq, Repr

/-- PIIType from `src/types/index.ts`. -/
inductive PIIType where
  | Phone | Email | IDCard | BankCard | IP | APIKey
deriving DecidableEq, Repr

/-- PIIItem from `src/types/index.ts`. -/
structure PIIItem where
  piiType : PIIType
  value : String
  start : Nat
  stop : Nat
deriving DecidableEq, Repr

/-- PIIScanResult from `src/types/index.ts`. -/
structure PIIScanResult where
  hasPii : Bool
  items : List PIIItem
deriving DecidableEq, Repr

/-- ActionType from `src/types/index.ts`. -/
inductive ActionType where
  | LocalRule | AIPrompt
deriving DecidableEq, Repr

/-- ActionChip from `src/types/index.ts`. -/
structure ActionChip where
  id : String
  label : String
  actionType : ActionType
  payload : String
  shortcut : Option String
deriving DecidableEq, Repr

/-- AppConfig from `src/types/index.ts`. -/
structure AppConfig where
  hotkey : String
  aiProvider : AIProvider
  ollamaBaseUrl : String
  openaiBaseUrl : String
  modelName : String
  theme : Theme
deriving DecidableEq, Repr

/-- AIConfig from `src/types/index.ts`.  `temperature` is an exact rational in
the model (the code only ever stores the literal 0.7 and never computes with
it). -/
structure AIConfig where
  provider : AIProvider
  baseUrl : String
  model : String
  apiKey : Option String
  maxTokens : Nat
  temperature : Rat
deriving DecidableEq, Repr

/-- `Partial<AIConfig>` (the optional `aiConfig` argument of `processWithAI`):
every field optional; an absent field is `none`. -/
structure PartialAIConfig where
  provider : Option AIProvider := none
  baseUrl : Option String := none
  model : Option String := none
  apiKey : Option String := none
  maxTokens : Option Nat := none
  temperature : Option Rat := none
deriving DecidableEq, Repr

/-- Clipboard content as used by the store: only its `text` field is ever read
(`clipboardContent.value?.text`). -/
structure ClipboardContent where
  text : String
deriving DecidableEq, Repr

/-- MaskMapping from `src/types/index.ts`: `Record<string, string>`. -/
abbrev MaskMapping := List (String × String)

/-- The payload delivered on the `ai:chunk` event.  The shape (including
`requestId`) is taken from the listener registration in
`src/components/FloatingPanel.vue`:
`listen<{ content: string; done: boolean; requestId: string }>('ai:chunk', ...)`,
matching the parameter type of `handleAIChunk` in `src/stores/app.ts`. -/
structure ChunkPayload where
  content : String
  done : Bool
  requestId : String
deriving DecidableEq, Repr

/-- The payload delivered on the `ai:error` event, from the listener in
`src/components/FloatingPanel.vue` and the parameter type of `handleAIError`. -/
structure ErrorPayload where
  code : String
  message : String
  requestId : String
deriving DecidableEq, Repr

/-- The complete mutable state of the `useAppStore` Pinia store
(`src/stores/app.ts`, lines 16-37). -/
structure AppState where
  isVisible : Bool
  panelMode : PanelMode
  clipboardContent : Option ClipboardContent
  processedContent : String
  streamingContent : String
  actionChips : List ActionChip
  selectedChipIndex : Nat
  currentRequestId : Option String
  privacyStatus : PrivacyStatus
  maskedMapping : MaskMapping
  config : Option AppConfig
  errorMessage : Option String
deriving DecidableEq, Repr

/-- `clipboardText` computed: `clipboardContent.value?.text ?? ''`. -/
def AppState.clipboardText (s : AppState) : String :=
  match s.clipboardContent with
  | some c => c.text
  | none => ""

/-- `startProcessing` (`src/stores/app.ts` lines 183-188). -/
def startProcessing (s : AppState) : AppState :=
  { s with panelMode := .processing, streamingContent := "", processedContent := "",
           errorMessage := none }

/-- `appendStreamContent` (`src/stores/app.ts` lines 190-192). -/
def appendStreamContent (content : String) (s : AppState) : AppState :=
  { s with streamingContent := s.streamingContent ++ content }

/-- `finishProcessing` (`src/stores/app.ts` lines 194-199). -/
def finishProcessing (result : String) (s : AppState) : AppState :=
  { s with processedContent := result, panelMode := .result, streamingContent := "",
           currentRequestId := none }

/-- `setError` (`src/stores/app.ts` lines 201-205). -/
def setError (message : String) (s : AppState) : AppState :=
  { s with errorMessage := some message, panelMode := .preview, currentRequestId := none }

/-- `reset` (`src/stores/app.ts` lines 207-218). -/
def reset (s : AppState) : AppState :=
  { s with clipboardContent := none, processedContent := "", streamingContent := "",
           actionChips := [], selectedChipIndex := 0, privacyStatus := .localMode,
           maskedMapping := [], errorMessage := none, panelMode := .idle,
           currentRequestId := none }

/-- `handleAIChunk` (`src/stores/app.ts` lines 221-229).  The guard
`payload.requestId !== currentRequestId.value` compares a `string` with a
`string | null`; it passes exactly when `currentRequestId` holds the same
string. -/
def handleAIChunk (p : ChunkPayload) (s : AppState) : AppState :=
  if s.currentRequestId = some p.requestId then
    if p.done then finishProcessing p.content s else appendStreamContent p.content s
  else s

/-- `handleAIError` (`src/stores/app.ts` lines 231-234).  On a matching id it
calls `setError` with the template string `AI Error [${code}]: ${message}`. -/
def handleAIError (p : ErrorPayload) (s : AppState) : AppState :=
  if s.currentRequestId = some p.requestId then
    setError ("AI Error [" ++ p.code ++ "]: " ++ p.message) s
  else s

/-- One inbound AI event: either an `ai:chunk` (delta or done) or an
`ai:error`. -/
inductive AIEvent where
  | chunk (p : ChunkPayload)
  | err (e : ErrorPayload)
deriving DecidableEq, Repr

/-- The request id an event is tagged with. -/
def AIEvent.requestId : AIEvent → String
  | .chunk p => p.requestId
  | .err e => e.requestId

/-- Dispatch one inbound event to the store's handler. -/
def handleAIEvent (s : AppState) (ev : AIEvent) : AppState :=
  match ev with
  | .chunk p => handleAIChunk p s
  | .err e => handleAIError e s

/-- Outcome of an awaited Tauri command invocation: the promise resolves
(`ok`), rejects (`rejected`), or never settles (`hang`).  In JavaScript an
`await` on a never-settling promise means the rest of the `async` function
never runs. -/
inductive InvokeOutcome where
  | ok | rejected | hang
deriving DecidableEq, Repr

/-- `cancelAI` (`src/stores/app.ts` lines 138-148).  The body runs only when
`currentRequestId` is non-null; the backend rejection is swallowed by the
empty `catch`; the two assignments (`currentRequestId = null`,
`panelMode = 'preview'`) sit *after* the `await`, so on a never-settling
invocation (`hang`) they never execute and the observable state stays as it
was at the suspension point. -/
def cancelAI (s : AppState) (o : InvokeOutcome) : AppState :=
  if s.currentRequestId.isSome then
    match o with
    | .hang => s
    | _ => { s with currentRequestId := none, panelMode := .preview }
  else s

/-- The synchronous body of `hidePanel` (`src/stores/app.ts` lines 51-58)
apart from the `cancelAI()` call: the three assignments it performs. -/
def syncHide (s : AppState) : AppState :=
  { s with isVisible := false, panelMode := .idle, errorMessage := none }

/-- `hidePanel` (`src/stores/app.ts` lines 51-58) together with the completion
of the cancellation it triggers.  `hidePanel` is synchronous and calls the
`async` `cancelAI()` *without awaiting it*: `cancelAI` runs up to its first
`await` and suspends, `hidePanel`'s own three assignments run next, and only
afterwards (when the backend call settles, outcome `ok`/`rejected`) does
`cancelAI`'s continuation run, assigning `currentRequestId = null` and
`panelMode = 'preview'` on top of the state `hidePanel` left behind.  On
outcome `hang` the continuation never runs. -/
def hidePanel (s : AppState) (o : InvokeOutcome) : AppState :=
  if s.currentRequestId.isSome then
    match o with
    | .hang => syncHide s
    | _ => { syncHide s with currentRequestId := none, panelMode := .preview }
  else syncHide s

/-- `scanPrivacy` (`src/stores/app.ts` lines 74-85); the outcome of the
`scan_pii` backend command is passed explicitly (`Except.error` models a
rejected invocation, caught by the `catch` that falls back to 'local'). -/
def scanPrivacy (s : AppState) (outcome : Except String PIIScanResult) : AppState :=
  match outcome with
  | .ok result =>
    if result.hasPii then
      { s with privacyStatus := .cloudMasked result.items.length }
    else
      { s with privacyStatus := .cloudSafe }
  | .error _ => { s with privacyStatus := .localMode }

/-- The default AIConfig assembled by `processWithAI`
(`src/stores/app.ts` lines 109-116) before the `...aiConfig` spread. -/
def buildBaseConfig (cfg : Option AppConfig) : AIConfig :=
  { provider := (cfg.map (·.aiProvider)).getD .Ollama,
    baseUrl :=
      if cfg.map (·.aiProvider) = some AIProvider.OpenAI then
        (cfg.map (·.openaiBaseUrl)).getD "https://api.openai.com/v1"
      else
        (cfg.map (·.ollamaBaseUrl)).getD "http://localhost:11434",
    model := (cfg.map (·.modelName)).getD "llama3.2",
    apiKey := none,
    maxTokens := 2048,
    temperature := (7 : Rat) / 10 }

/-- The `{...defaults, ...aiConfig}` spread (`src/stores/app.ts` line 117). -/
def mergeConfig (base : AIConfig) (pc : PartialAIConfig) : AIConfig :=
  { provider := pc.provider.getD base.provider,
    baseUrl := pc.baseUrl.getD base.baseUrl,
    model := pc.model.getD base.model,
    apiKey := if pc.apiKey.isSome then pc.apiKey else base.apiKey,
    maxTokens := pc.maxTokens.getD base.maxTokens,
    temperature := pc.temperature.getD base.temperature }

/-- True exactly when `privacyStatus.value.type === 'cloud-masked'`
(`src/stores/app.ts` line 128). -/
def isCloudMasked : PrivacyStatus → Bool
  | .cloudMasked _ => true
  | _ => false

/-- The arguments `processWithAI` passes to the `send_ai_request` command
(`src/stores/app.ts` line 131). -/
structure SentRequest where
  prompt : String
  config : AIConfig
  requestId : String
  usePrivacyShield : Bool
deriving DecidableEq, Repr

/-- `processWithAI` (`src/stores/app.ts` lines 101-136).  `freshId` stands for
`crypto.randomUUID()`; `apiKeyRes` is the outcome of `getApiKey('openai')`
(only consulted when the merged provider is OpenAI; the key is stored only if
truthy, i.e. non-empty); `sendRes` is the outcome of the `send_ai_request`
invocation.  The second component records the arguments actually passed to
`send_ai_request`, or `none` if it was never invoked.  A thrown error is
caught and routed to `setError` followed by `currentRequestId = null` (already
performed by `setError` itself). -/
def processWithAI (s : AppState) (prompt : String) (pc : PartialAIConfig) (freshId : String)
    (apiKeyRes : Except String String) (sendRes : Except String Unit) :
    AppState × Option SentRequest :=
  if s.clipboardText = "" then (s, none)
  else
    let s1 := { startProcessing s with currentRequestId := some freshId }
    let fullConfig := mergeConfig (buildBaseConfig s.config) pc
    let afterKey : Except String AIConfig :=
      if fullConfig.provider = AIProvider.OpenAI then
        match apiKeyRes with
        | .error e => .error e
        | .ok k => .ok (if k = "" then fullConfig else { fullConfig with apiKey := some k })
      else .ok fullConfig
    match afterKey with
    | .error e => (setError ("AI request failed: " ++ e) s1, none)
    | .ok fc =>
      let usePrivacyShield := isCloudMasked s1.privacyStatus
      let fullPrompt := prompt ++ "\n\nContent:\n" ++ s.clipboardText
      let req : SentRequest :=
        { prompt := fullPrompt, config := fc, requestId := freshId,
          usePrivacyShield := usePrivacyShield }
      match sendRes with
      | .ok _ => (s1, some req)
      | .error e => (setError ("AI request failed: " ++ e) s1, some req)

/-! ## Part 2: the privacy shield (Masker / Restorer)

The Rust implementations behind the `mask_pii` / `restore_pii` commands
(invoked in `src/lib/tauri.ts`) are not part of the frontend sources, so the
Masker/Restorer is modelled from the specification (§3, §4.3, §6). -/

/-- Modelled from the spec: `<CATEGORY>` is the upper-case category name used
inside a placeholder (§6); the category set is the one of
`src/types/index.ts` PIIType. -/
def catName : PIIType → List Char
  | .Phone => "PHONE".data
  | .Email => "EMAIL".data
  | .IDCard => "IDCARD".data
  | .BankCard => "BANKCARD".data
  | .IP => "IP".data
  | .APIKey => "APIKEY".data

/-- Base-10 digits, least significant first, with explicit fuel so that the
recursion is structural; `fuel ≥ n` suffices. -/
def digitsRevAux (fuel n : Nat) : List Nat :=
  match fuel with
  | 0 => []
  | f + 1 => if n = 0 then [] else n % 10 :: digitsRevAux f (n / 10)

/-- Base-10 digits of `n`, least significant first (empty for 0). -/
def digitsRev (n : Nat) : List Nat := digitsRevAux n n

/-- Value of a least-significant-first digit list. -/
def parseRev : List Nat → Nat
  | [] => 0
  | d :: ds => d + 10 * parseRev ds

/-- Decimal digit characters of `n`, most significant first (empty for 0). -/
def decChars (n : Nat) : List Char := (digitsRev n).reverse.map Nat.digitChar

/-- Modelled from the spec: `<NN>` — the sequence number in decimal,
left-padded with '0' to at least two digits (§6). -/
def padNum (n : Nat) : List Char :=
  List.replicate (2 - (decChars n).length) '0' ++ decChars n

/-- Inverse of `Nat.digitChar` on decimal digits. -/
def charDigit (c : Char) : Nat := c.toNat - 48

/-- Left inverse of `padNum`: parse a padded decimal numeral. -/
def unpad (l : List Char) : Nat := parseRev ((l.map charDigit).reverse)

/-- Modelled from the spec: the placeholder body `FP_<CATEGORY>_<NN>` (§6). -/
def placeholderBody (c : PIIType) (n : Nat) : List Char :=
  'F' :: 'P' :: '_' :: (catName c ++ '_' :: padNum n)

/-- Modelled from the spec: the wire-visible placeholder token — the body
wrapped in double braces (§6). -/
def placeholder (c : PIIType) (n : Nat) : List Char :=
  '{' :: '{' :: (placeholderBody c n ++ ['}', '}'])

/-- A PII match span `[start, stop)` into the source text (spec §3 PIIMatch). -/
structure PIIMatch where
  start : Nat
  stop : Nat
  cat : PIIType
deriving DecidableEq, Repr

/-- Spec §3 ScanResult invariants, relative to a starting offset: matches are
ascending by start, mutually non-overlapping, non-empty and within bounds. -/
def validMatches (t : List Char) : Nat → List PIIMatch → Bool
  | _, [] => true
  | pos, m :: ms =>
    decide (pos ≤ m.start) && decide (m.start < m.stop) && decide (m.stop ≤ t.length) &&
    validMatches t m.stop ms

/-- Modelled from the spec (§4.3 `mask`): process matches in ascending start
order in a single left-to-right pass over the original text, assign a
monotonically increasing (global) sequence number, replace each matched span
by its placeholder and record placeholder→original-value mapping entries.
All reads use original-text offsets; the output is built incrementally. -/
def maskAux (t : List Char) : Nat → List PIIMatch → Nat → List Char × List (List Char × List Char)
  | pos, [], _ => (t.drop pos, [])
  | pos, m :: ms, k =>
    let ph := placeholder m.cat k
    let r := maskAux t m.stop ms (k + 1)
    ((t.drop pos).take (m.start - pos) ++ ph ++ r.1,
     (ph, (t.drop m.start).take (m.stop - m.start)) :: r.2)

/-- Modelled from the spec: `mask(text, scanResult) -> (maskedText, MaskMapping)`
(§4.3); the backing Rust command `mask_pii` is not in the frontend sources. -/
def mask_pii (t : List Char) (ms : List PIIMatch) : List Char × List (List Char × List Char) :=
  maskAux t 0 ms 0

/-- First mapping entry whose key starts at the current scan position. -/
def findKey (mp : List (List Char × List Char)) (s : List Char) : Option (List Char × List Char) :=
  match mp with
  | [] => none
  | kv :: rest => if kv.1.isPrefixOf s then some kv else findKey rest s

/-- Modelled from the spec (§4.3 `restore`): scan the input left to right; at
each position, if a mapping key occurs here, emit its original value and skip
past the key (the inserted value is not rescanned); otherwise keep the
character.  Placeholders not present in the mapping are left untouched.  The
fuel argument (`≥` remaining length) makes the recursion structural. -/
def restoreAux (mp : List (List Char × List Char)) : Nat → List Char → List Char
  | 0, s => s
  | _ + 1, [] => []
  | fuel + 1, c :: cs =>
    match findKey mp (c :: cs) with
    | some kv => kv.2 ++ restoreAux mp fuel ((c :: cs).drop kv.1.length)
    | none => c :: restoreAux mp fuel cs

/-- Modelled from the spec: `restore(text, mapping) -> text` (§4.3); the
backing Rust command `restore_pii` is not in the frontend sources. -/
def restore_pii (s : List Char) (mp : List (List Char × List Char)) : List Char :=
  restoreAux mp s.length s

/-- The lexical shape every generated placeholder key has: double open brace,
a non-empty brace-free body, double close brace. -/
def WellFormedKey (key : List Char) : Prop :=
  ∃ b, key = '{' :: '{' :: (b ++ ['}', '}']) ∧ b ≠ [] ∧ '{' ∉ b ∧ '}' ∉ b

/-! ### Concrete inputs used by witnesses and counterexamples -/

/-- A quiescent store state with clipboard text present. -/
def testState : AppState :=
  { isVisible := true, panelMode := .preview, clipboardContent := some ⟨"hello"⟩,
    processedContent := "", streamingContent := "", actionChips := [],
    selectedChipIndex := 0, currentRequestId := none, privacyStatus := .localMode,
    maskedMapping := [], config := none, errorMessage := none }

/-- An empty `Partial<AIConfig>` argument. -/
def emptyPartial : PartialAIConfig := {}

/-- State after starting request "a" from `testState` (send succeeded). -/
def testS1 : AppState :=
  (processWithAI testState "p" emptyPartial "a" (Except.ok "k") (Except.ok ())).1

/-- State after additionally starting request "b" (superseding "a"). -/
def testS2 : AppState :=
  (processWithAI testS1 "q" emptyPartial "b" (Except.ok "k") (Except.ok ())).1

/-- A state with request "a" in flight (streaming). -/
def reqState : AppState :=
  { testState with currentRequestId := some "a", panelMode := .processing }

/-- Counterexample text for the round trip: the text itself starts with the
very token the mask call will generate for its single Phone match. -/
def c8T : List Char := placeholder PIIType.Phone 0 ++ "13800138000".data

/-- The single Phone match of `c8T` (the 11 digits at offsets 15..26). -/
def c8Ms : List PIIMatch := [⟨15, 26, PIIType.Phone⟩]

/-- Round-trip witness text (the spec §8 scenario string). -/
def c8wT : List Char := "Email: a@b.com, phone 13800138000".data

/-- Its scan result: an Email match then a Phone match, in text order. -/
def c8wMs : List PIIMatch := [⟨7, 14, PIIType.Email⟩, ⟨22, 33, PIIType.Phone⟩]

/-- The request `processWithAI` dispatches from `testState` right after a
PII-positive scan (used by the C9 witness). -/
def c9req : SentRequest :=
  { prompt := "p" ++ "\n\nContent:\n" ++ "hello",
    config := mergeConfig (buildBaseConfig none) emptyPartial,
    requestId := "a", usePrivacyShield := true }

/-- `concatContents cs` is the concatenation of the `content` fields of `cs`
in order. -/
def concatContents : List ChunkPayload → String
  | [] => ""
  | p :: ps => p.content ++ concatContents ps

/-! ## Part 3: theorems about the store -/

lemma processWithAI_ok_state (s : AppState) (prompt : String) (pc : PartialAIConfig)
    (freshId k : String) (h : s.clipboardText ≠ "") :
    (processWithAI s prompt pc freshId (Except.ok k) (Except.ok ())).1 =
      { startProcessing s with currentRequestId := some freshId } := by
  unfold processWithAI
  rw [if_neg h]
  by_cases hp : (mergeConfig (buildBaseConfig s.config) pc).provider = AIProvider.OpenAI
  · simp [hp]
  · simp [hp]

lemma startProcessing_clipboard (s : AppState) :
    (startProcessing s).clipboardContent = s.clipboardContent := rfl

lemma handleAIEvent_of_none (s : AppState) (h : s.currentRequestId = none) (ev : AIEvent) :
    handleAIEvent s ev = s := by
  cases ev <;> simp [handleAIEvent, handleAIChunk, handleAIError, h]

lemma foldl_handleAIEvent_of_none (s : AppState) (h : s.currentRequestId = none) :
    ∀ evs : List AIEvent, evs.foldl handleAIEvent s = s := by
  intro evs
  induction evs with
  | nil => rfl
  | cons ev evs ih => rw [List.foldl_cons, handleAIEvent_of_none s h ev]; exact ih

/-- C1: an inbound chunk or error event whose requestId differs from
`currentRequestId` leaves every store field unchanged; in particular, after
starting request A and then request B (both sends succeeding), the store's
current request is B, a delta tagged A is a complete no-op, and a delta tagged
B is appended to the stream. -/
theorem c1_stale_events_discarded :
    (∀ (s : AppState) (p : ChunkPayload),
        s.currentRequestId ≠ some p.requestId → handleAIChunk p s = s)
  ∧ (∀ (s : AppState) (e : ErrorPayload),
        s.currentRequestId ≠ some e.requestId → handleAIError e s = s)
  ∧ (∀ (s : AppState) (pA pB : String) (pcA pcB : PartialAIConfig) (idA idB kA kB c : String),
      s.clipboardText ≠ "" → idA ≠ idB →
      (processWithAI (processWithAI s pA pcA idA (Except.ok kA) (Except.ok ())).1
          pB pcB idB (Except.ok kB) (Except.ok ())).1.currentRequestId = some idB ∧
      handleAIChunk ⟨c, false, idA⟩
          (processWithAI (processWithAI s pA pcA idA (Except.ok kA) (Except.ok ())).1
            pB pcB idB (Except.ok kB) (Except.ok ())).1 =
        (processWithAI (processWithAI s pA pcA idA (Except.ok kA) (Except.ok ())).1
            pB pcB idB (Except.ok kB) (Except.ok ())).1 ∧
      handleAIChunk ⟨c, false, idB⟩
          (processWithAI (processWithAI s pA pcA idA (Except.ok kA) (Except.ok ())).1
            pB pcB idB (Except.ok kB) (Except.ok ())).1 =
        appendStreamContent c
          (processWithAI (processWithAI s pA pcA idA (Except.ok kA) (Except.ok ())).1
            pB pcB idB (Except.ok kB) (Except.ok ())).1) := by
  refine ⟨?_, ?_, ?_⟩
  · intro s p h
    simp [handleAIChunk, h]
  · intro s e h
    simp [handleAIError, h]
  · intro s pA pB pcA pcB idA idB kA kB c hcb hne
    have h1 : (processWithAI s pA pcA idA (Except.ok kA) (Except.ok ())).1 =
        { startProcessing s with currentRequestId := some idA } :=
      processWithAI_ok_state s pA pcA idA kA hcb
    have hcb1 : (processWithAI s pA pcA idA (Except.ok kA) (Except.ok ())).1.clipboardText ≠ "" := by
      rw [h1]
      exact hcb
    have h2 : (processWithAI (processWithAI s pA pcA idA (Except.ok kA) (Except.ok ())).1
        pB pcB idB (Except.ok kB) (Except.ok ())).1 =
        { startProcessing (processWithAI s pA pcA idA (Except.ok kA) (Except.ok ())).1 with
            currentRequestId := some idB } :=
      processWithAI_ok_state _ pB pcB idB kB hcb1
    have hne' : idB ≠ idA := fun hh => hne hh.symm
    refine ⟨by rw [h2], ?_, ?_⟩
    · have hcur : (processWithAI (processWithAI s pA pcA idA (Except.ok kA) (Except.ok ())).1
          pB pcB idB (Except.ok kB) (Except.ok ())).1.currentRequestId = some idB := by rw [h2]
      simp [handleAIChunk, hcur, hne']
    · have hcur : (processWithAI (processWithAI s pA pcA idA (Except.ok kA) (Except.ok ())).1
          pB pcB idB (Except.ok kB) (Except.ok ())).1.currentRequestId = some idB := by rw [h2]
      simp [handleAIChunk, hcur]

/-- C1 witness: the chain of two starts from the concrete `testState`, with a
delta tagged "a" discarded and a delta tagged "b" appended. -/
theorem c1_stale_events_discarded_witness :
    testS2.currentRequestId = some "b" ∧
    handleAIChunk ⟨"x", false, "a"⟩ testS2 = testS2 ∧
    handleAIChunk ⟨"x", false, "b"⟩ testS2 = appendStreamContent "x" testS2 :=
  c1_stale_events_discarded.2.2 testState "p" "q" emptyPartial emptyPartial
    "a" "b" "k" "k" "x" (by decide) (by decide)

/-- C2: a done chunk matching the current request runs `finishProcessing`,
which nulls `currentRequestId`; afterwards every further event carrying the
same request id (a second Done, or an Error after Done) is discarded, so the
state never changes again for that id. -/
theorem c2_single_terminal :
    ∀ (s : AppState) (p : ChunkPayload),
      s.currentRequestId = some p.requestId → p.done = true →
      handleAIChunk p s = finishProcessing p.content s ∧
      (handleAIChunk p s).currentRequestId = none ∧
      (∀ evs : List AIEvent, (∀ ev ∈ evs, ev.requestId = p.requestId) →
        evs.foldl handleAIEvent (handleAIChunk p s) = handleAIChunk p s) := by
  intro s p hid hdone
  have hfin : handleAIChunk p s = finishProcessing p.content s := by
    simp [handleAIChunk, hid, hdone]
  have hnone : (handleAIChunk p s).currentRequestId = none := by
    rw [hfin]; rfl
  exact ⟨hfin, hnone, fun evs _ => foldl_handleAIEvent_of_none _ hnone evs⟩

/-- C2 witness: concrete done event for the in-flight request "a" of
`reqState`, followed by a later Done and a later Error for "a", both inert. -/
theorem c2_single_terminal_witness :
    handleAIChunk ⟨"final", true, "a"⟩ reqState = finishProcessing "final" reqState ∧
    (handleAIChunk ⟨"final", true, "a"⟩ reqState).currentRequestId = none ∧
    (∀ evs : List AIEvent, (∀ ev ∈ evs, ev.requestId = "a") →
      evs.foldl handleAIEvent (handleAIChunk ⟨"final", true, "a"⟩ reqState) =
        handleAIChunk ⟨"final", true, "a"⟩ reqState) :=
  c2_single_terminal reqState ⟨"final", true, "a"⟩ (by decide) rfl

/-- C3: `cancelAI` is idempotent and never raises: with no current request it
is a complete no-op for any backend outcome (the backend is not even called);
a second completed call after a first completed call changes nothing; a
backend rejection produces exactly the same state as a success (the rejection
is swallowed by the empty catch); and no outcome ever touches
`errorMessage`. -/
theorem c3_cancel_idempotent :
    (∀ (s : AppState) (o : InvokeOutcome), s.currentRequestId = none → cancelAI s o = s)
  ∧ (∀ (s : AppState) (o1 o2 : InvokeOutcome), o1 ≠ InvokeOutcome.hang →
      cancelAI (cancelAI s o1) o2 = cancelAI s o1)
  ∧ (∀ s : AppState, cancelAI s InvokeOutcome.rejected = cancelAI s InvokeOutcome.ok)
  ∧ (∀ (s : AppState) (o : InvokeOutcome), (cancelAI s o).errorMessage = s.errorMessage) := by
  refine ⟨?_, ?_, ?_, ?_⟩
  · intro s o h
    simp [cancelAI, h]
  · intro s o1 o2 h1
    by_cases hs : s.currentRequestId.isSome
    · cases o1 with
      | hang => exact absurd rfl h1
      | ok => simp [cancelAI, hs]
      | rejected => simp [cancelAI, hs]
    · cases o1 <;> cases o2 <;> simp [cancelAI, hs]
  · intro s
    by_cases hs : s.currentRequestId.isSome <;> simp [cancelAI, hs]
  · intro s o
    by_cases hs : s.currentRequestId.isSome <;> cases o <;> simp [cancelAI, hs]

/-- C3 witness: cancelling the idle `testState` is a no-op; cancelling the
in-flight `reqState` twice equals cancelling it once; a rejected backend call
gives the same state as a resolved one; `errorMessage` is untouched. -/
theorem c3_cancel_idempotent_witness :
    cancelAI testState InvokeOutcome.ok = testState ∧
    cancelAI (cancelAI reqState InvokeOutcome.ok) InvokeOutcome.ok =
      cancelAI reqState InvokeOutcome.ok ∧
    cancelAI reqState InvokeOutcome.rejected = cancelAI reqState InvokeOutcome.ok ∧
    (cancelAI reqState InvokeOutcome.hang).errorMessage = reqState.errorMessage :=
  ⟨c3_cancel_idempotent.1 testState InvokeOutcome.ok (by decide),
   c3_cancel_idempotent.2.1 reqState InvokeOutcome.ok InvokeOutcome.ok (by decide),
   c3_cancel_idempotent.2.2.1 reqState,
   c3_cancel_idempotent.2.2.2 reqState InvokeOutcome.hang⟩

/-- C4 counterexample: with a request in flight, when the backend
`cancel_ai_request` invocation never settles, the two assignments after the
`await` never run, so the caller-visible transition does **not** happen —
refuting "the state transition happens unconditionally ... or never
acknowledges" at this concrete input. -/
theorem c4_cancel_unconditional_cex :
    reqState.currentRequestId ≠ none ∧
    ¬ ((cancelAI reqState InvokeOutcome.hang).currentRequestId = none ∧
       (cancelAI reqState InvokeOutcome.hang).panelMode = PanelMode.preview) := by
  refine ⟨by decide, ?_⟩
  intro h
  exact absurd h.1 (by decide)

/-- C4 (amended): whenever `cancelAI` runs with a non-null `currentRequestId`
and the backend `cancel_ai_request` call settles — whether it resolves or
rejects — `currentRequestId` becomes null and `panelMode` becomes 'preview';
if the call never settles, the assignments after the `await` never execute. -/
theorem c4_cancel_transition_amended :
    ∀ (s : AppState) (o : InvokeOutcome), s.currentRequestId ≠ none →
      o ≠ InvokeOutcome.hang →
      (cancelAI s o).currentRequestId = none ∧
      (cancelAI s o).panelMode = PanelMode.preview := by
  intro s o hs ho
  have hs' : s.currentRequestId.isSome := by
    cases h : s.currentRequestId with
    | none => exact absurd h hs
    | some r => rfl
  cases o with
  | hang => exact absurd rfl ho
  | ok => simp [cancelAI, hs']
  | rejected => simp [cancelAI, hs']

/-- C4 witness: a rejected backend call on the in-flight `reqState` still
transitions the store. -/
theorem c4_cancel_transition_amended_witness :
    (cancelAI reqState InvokeOutcome.rejected).currentRequestId = none ∧
    (cancelAI reqState InvokeOutcome.rejected).panelMode = PanelMode.preview :=
  c4_cancel_transition_amended reqState InvokeOutcome.rejected (by decide) (by decide)

/-- C5: an error event matching the current request sets `errorMessage` to the
template string (which contains the event's code and message as substrings),
nulls `currentRequestId` and moves `panelMode` to 'preview' (leaving
'processing'); a non-matching error event changes nothing. -/
theorem c5_error_delivery :
    ∀ (s : AppState) (e : ErrorPayload),
      (s.currentRequestId = some e.requestId →
        (handleAIError e s).errorMessage =
          some ("AI Error [" ++ e.code ++ "]: " ++ e.message) ∧
        e.code.data <:+: ("AI Error [" ++ e.code ++ "]: " ++ e.message).data ∧
        e.message.data <:+: ("AI Error [" ++ e.code ++ "]: " ++ e.message).data ∧
        (handleAIError e s).currentRequestId = none ∧
        (handleAIError e s).panelMode = PanelMode.preview ∧
        PanelMode.preview ≠ PanelMode.processing) ∧
      (s.currentRequestId ≠ some e.requestId → handleAIError e s = s) := by
  intro s e
  constructor
  · intro hid
    have hmsg : handleAIError e s =
        setError ("AI Error [" ++ e.code ++ "]: " ++ e.message) s := by
      simp [handleAIError, hid]
    refine ⟨by rw [hmsg]; rfl, ?_, ?_, by rw [hmsg]; rfl, by rw [hmsg]; rfl, by decide⟩
    · exact ⟨"AI Error [".data, ("]: " ++ e.message).data, by
        simp [String.data_append, List.append_assoc]⟩
    · exact ⟨("AI Error [" ++ e.code ++ "]: ").data, [], by
        simp [String.data_append, List.append_assoc]⟩
  · intro hid
    simp [handleAIError, hid]

/-- C5 witness: a matching error event on `reqState` and a stale one. -/
theorem c5_error_delivery_witness :
    ((handleAIError ⟨"Timeout", "too slow", "a"⟩ reqState).errorMessage =
        some ("AI Error [" ++ "Timeout" ++ "]: " ++ "too slow") ∧
      ("Timeout" : String).data <:+:
        ("AI Error [" ++ "Timeout" ++ "]: " ++ "too slow").data ∧
      ("too slow" : String).data <:+:
        ("AI Error [" ++ "Timeout" ++ "]: " ++ "too slow").data ∧
      (handleAIError ⟨"Timeout", "too slow", "a"⟩ reqState).currentRequestId = none ∧
      (handleAIError ⟨"Timeout", "too slow", "a"⟩ reqState).panelMode = PanelMode.preview ∧
      PanelMode.preview ≠ PanelMode.processing) :=
  (c5_error_delivery reqState ⟨"Timeout", "too slow", "a"⟩).1 (by decide)

lemma foldl_chunks_append (r : String) :
    ∀ (cs : List ChunkPayload) (s : AppState),
      s.currentRequestId = some r →
      (∀ p ∈ cs, p.requestId = r ∧ p.done = false) →
      (cs.foldl (fun st p => handleAIChunk p st) s).streamingContent =
          s.streamingContent ++ concatContents cs ∧
      (cs.foldl (fun st p => handleAIChunk p st) s).currentRequestId = some r := by
  intro cs
  induction cs with
  | nil =>
    intro s hid _
    refine ⟨?_, hid⟩
    simp [concatContents]
  | cons p ps ih =>
    intro s hid hall
    obtain ⟨hpr, hpd⟩ := hall p (List.mem_cons_self p ps)
    have hstep : handleAIChunk p s = appendStreamContent p.content s := by
      simp [handleAIChunk, hid, hpr, hpd]
    have hacur : (appendStreamContent p.content s).currentRequestId = some r := hid
    have hrest := ih (appendStreamContent p.content s) hacur
      (fun q hq => hall q (List.mem_cons_of_mem p hq))
    rw [List.foldl_cons, hstep]
    refine ⟨?_, hrest.2⟩
    rw [hrest.1]
    show s.streamingContent ++ p.content ++ concatContents ps = _
    rw [concatContents, String.append_assoc]

/-- C6: starting from the empty `streamingContent` that `startProcessing`
establishes, folding any finite sequence of non-done chunks matching the
current request leaves `streamingContent` equal to the concatenation of their
`content` fields in arrival order, and a subsequent matching done event moves
that request's final content into `processedContent` and clears
`streamingContent`. -/
theorem c6_stream_concat :
    ∀ (s0 : AppState) (r : String) (cs : List ChunkPayload) (d : ChunkPayload),
      s0.streamingContent = "" → s0.currentRequestId = some r →
      (∀ p ∈ cs, p.requestId = r ∧ p.done = false) →
      d.requestId = r → d.done = true →
      (∀ s : AppState, (startProcessing s).streamingContent = "") ∧
      (cs.foldl (fun st p => handleAIChunk p st) s0).streamingContent = concatContents cs ∧
      (handleAIChunk d (cs.foldl (fun st p => handleAIChunk p st) s0)).processedContent =
        d.content ∧
      (handleAIChunk d (cs.foldl (fun st p => handleAIChunk p st) s0)).streamingContent = "" := by
  intro s0 r cs d hemp hid hall hdr hdd
  obtain ⟨hstream, hcur⟩ := foldl_chunks_append r cs s0 hid hall
  set sN := cs.foldl (fun st p => handleAIChunk p st) s0 with hsN
  have hstream' : sN.streamingContent = concatContents cs := by
    rw [hstream, hemp, String.empty_append]
  have hdone : handleAIChunk d sN = finishProcessing d.content sN := by
    simp [handleAIChunk, hcur, hdr, hdd]
  exact ⟨fun _ => rfl, hstream', by rw [hdone]; rfl, by rw [hdone]; rfl⟩

/-- C6 witness: three deltas for request "a" on `reqState` concatenate in
order, and the done event finalises. -/
theorem c6_stream_concat_witness :
    (∀ s : AppState, (startProcessing s).streamingContent = "") ∧
    (([⟨"one ", false, "a"⟩, ⟨"two ", false, "a"⟩, ⟨"three", false, "a"⟩] :
        List ChunkPayload).foldl (fun st p => handleAIChunk p st) reqState).streamingContent =
      concatContents [⟨"one ", false, "a"⟩, ⟨"two ", false, "a"⟩, ⟨"three", false, "a"⟩] ∧
    (handleAIChunk ⟨"fin", true, "a"⟩
        (([⟨"one ", false, "a"⟩, ⟨"two ", false, "a"⟩, ⟨"three", false, "a"⟩] :
          List ChunkPayload).foldl (fun st p => handleAIChunk p st) reqState)).processedContent =
      "fin" ∧
    (handleAIChunk ⟨"fin", true, "a"⟩
        (([⟨"one ", false, "a"⟩, ⟨"two ", false, "a"⟩, ⟨"three", false, "a"⟩] :
          List ChunkPayload).foldl (fun st p => handleAIChunk p st) reqState)).streamingContent =
      "" :=
  c6_stream_concat reqState "a"
    [⟨"one ", false, "a"⟩, ⟨"two ", false, "a"⟩, ⟨"three", false, "a"⟩]
    ⟨"fin", true, "a"⟩ rfl (by decide) (by decide) rfl rfl

/-- C7: every modelled AI event payload — delta `{content, done: false}`,
completion `{content, done: true}`, error `{code, message}` — carries the
originating `requestId` field, and the store's handlers decide solely by
comparing that field against `currentRequestId`: any observable effect of
`handleAIChunk`/`handleAIError` implies the payload's id matched. -/
theorem c7_payload_tagging :
    (∀ c r : String, ({ content := c, done := false, requestId := r } : ChunkPayload).requestId = r)
  ∧ (∀ c r : String, ({ content := c, done := true, requestId := r } : ChunkPayload).requestId = r)
  ∧ (∀ cd m r : String,
      ({ code := cd, message := m, requestId := r } : ErrorPayload).requestId = r)
  ∧ (∀ (s : AppState) (p : ChunkPayload),
      handleAIChunk p s ≠ s → s.currentRequestId = some p.requestId)
  ∧ (∀ (s : AppState) (e : ErrorPayload),
      handleAIError e s ≠ s → s.currentRequestId = some e.requestId) := by
  refine ⟨fun _ _ => rfl, fun _ _ => rfl, fun _ _ _ => rfl, ?_, ?_⟩
  · intro s p h
    by_contra hid
    exact h (by simp [handleAIChunk, hid])
  · intro s e h
    by_contra hid
    exact h (by simp [handleAIError, hid])

/-- C7 witness: a chunk that changed `reqState` did match the current id. -/
theorem c7_payload_tagging_witness :
    reqState.currentRequestId =
      some ({ content := "x", done := false, requestId := "a" } : ChunkPayload).requestId :=
  c7_payload_tagging.2.2.2.1 reqState ⟨"x", false, "a"⟩ (by decide)

lemma processWithAI_sent_shield (s : AppState) (prompt : String) (pc : PartialAIConfig)
    (freshId : String) (ak : Except String String) (sr : Except String Unit)
    (req : SentRequest)
    (h : (processWithAI s prompt pc freshId ak sr).2 = some req) :
    req.usePrivacyShield = isCloudMasked s.privacyStatus := by
  by_cases hcb : s.clipboardText = ""
  · rw [processWithAI, if_pos hcb] at h
    exact absurd h (by simp)
  · rw [processWithAI, if_neg hcb] at h
    by_cases hp : (mergeConfig (buildBaseConfig s.config) pc).provider = AIProvider.OpenAI
    · simp only [hp, if_pos] at h
      cases ak with
      | error e => exact absurd h (by simp)
      | ok k =>
        cases sr with
        | ok u => simp at h; rw [← h]; rfl
        | error e => simp at h; rw [← h]; rfl
    · simp only [hp, if_neg, if_false] at h
      cases sr with
      | ok u => simp at h; rw [← h]; rfl
      | error e => simp at h; rw [← h]; rfl

/-- C9: `scanPrivacy` maps a successful scan with PII to status 'cloud-masked'
carrying the number of scanned items, a successful scan without PII to
'cloud-safe', and a rejected scan to 'local'; and a request dispatched by
`processWithAI` right after such a scan carries `usePrivacyShield = true`
exactly when the scan succeeded and reported PII. -/
theorem c9_shield_flag :
    (∀ (s : AppState) (r : PIIScanResult), r.hasPii = true →
      (scanPrivacy s (Except.ok r)).privacyStatus = PrivacyStatus.cloudMasked r.items.length)
  ∧ (∀ (s : AppState) (r : PIIScanResult), r.hasPii = false →
      (scanPrivacy s (Except.ok r)).privacyStatus = PrivacyStatus.cloudSafe)
  ∧ (∀ (s : AppState) (msg : String),
      (scanPrivacy s (Except.error msg)).privacyStatus = PrivacyStatus.localMode)
  ∧ (∀ (s : AppState) (sc : Except String PIIScanResult) (prompt : String)
       (pc : PartialAIConfig) (freshId : String) (ak : Except String String)
       (sr : Except String Unit) (req : SentRequest),
      (processWithAI (scanPrivacy s sc) prompt pc freshId ak sr).2 = some req →
      (req.usePrivacyShield = true ↔ ∃ r, sc = Except.ok r ∧ r.hasPii = true)) := by
  refine ⟨?_, ?_, ?_, ?_⟩
  · intro s r h
    simp [scanPrivacy, h]
  · intro s r h
    simp [scanPrivacy, h]
  · intro s msg
    simp [scanPrivacy]
  · intro s sc prompt pc freshId ak sr req h
    have hsh := processWithAI_sent_shield _ prompt pc freshId ak sr req h
    cases sc with
    | ok r =>
      cases hpii : r.hasPii with
      | true =>
        simp [scanPrivacy, hpii, isCloudMasked] at hsh
        exact ⟨fun _ => ⟨r, rfl, hpii⟩, fun _ => hsh⟩
      | false =>
        simp [scanPrivacy, hpii, isCloudMasked] at hsh
        refine ⟨fun hc => absurd hc (by simp [hsh]), ?_⟩
        rintro ⟨r', hr', hp'⟩
        cases hr'
        exact absurd hp' (by simp [hpii])
    | error e =>
      simp [scanPrivacy, isCloudMasked] at hsh
      refine ⟨fun hc => absurd hc (by simp [hsh]), ?_⟩
      rintro ⟨r', hr', _⟩
      exact absurd hr' (by simp)

/-- C9 witness: after a successful scan of `testState`'s clipboard reporting
one PII item, the request dispatched by `processWithAI` carries
`usePrivacyShield = true`, and the three status mappings hold at concrete
scan outcomes. -/
theorem c9_shield_flag_witness :
    (scanPrivacy testState
        (Except.ok ⟨true, [⟨PIIType.Phone, "13800138000", 0, 11⟩]⟩)).privacyStatus =
      PrivacyStatus.cloudMasked 1 ∧
    (scanPrivacy testState (Except.ok ⟨false, []⟩)).privacyStatus = PrivacyStatus.cloudSafe ∧
    (scanPrivacy testState (Except.error "boom")).privacyStatus = PrivacyStatus.localMode ∧
    (c9req.usePrivacyShield = true ↔
      ∃ r, (Except.ok ⟨true, [⟨PIIType.Phone, "13800138000", 0, 11⟩]⟩ :
          Except String PIIScanResult) = Except.ok r ∧ r.hasPii = true) :=
  ⟨c9_shield_flag.1 testState ⟨true, [⟨PIIType.Phone, "13800138000", 0, 11⟩]⟩ rfl,
   c9_shield_flag.2.1 testState ⟨false, []⟩ rfl,
   c9_shield_flag.2.2.1 testState "boom",
   c9_shield_flag.2.2.2 testState
     (Except.ok ⟨true, [⟨PIIType.Phone, "13800138000", 0, 11⟩]⟩)
     "p" emptyPartial "a" (Except.ok "k") (Except.ok ()) c9req (by rfl)⟩

/-- C10 counterexample: hiding the panel while request "a" is streaming, with
the triggered cancellation running to completion, ends with
`panelMode = 'preview'`, not 'idle': `hidePanel` does not await `cancelAI()`,
whose continuation later overwrites the 'idle' that `hidePanel` wrote. -/
theorem c10_hide_panel_cex :
    reqState.currentRequestId = some "a" ∧
    (hidePanel reqState InvokeOutcome.ok).panelMode = PanelMode.preview ∧
    PanelMode.preview ≠ PanelMode.idle := by
  refine ⟨by decide, by decide, by decide⟩

/-- C10 (amended): after `hidePanel` with the triggered cancellation (if any)
run to completion, `isVisible = false`, `errorMessage = null` and
`currentRequestId = null` hold for every prior state; `panelMode` ends at
'idle' when no request was in flight, but at 'preview' when one was — the
unawaited `cancelAI` continuation overwrites 'idle' after `hidePanel`
returns. -/
theorem c10_hide_panel_amended :
    ∀ (s : AppState) (o : InvokeOutcome), o ≠ InvokeOutcome.hang →
      (hidePanel s o).isVisible = false ∧
      (hidePanel s o).errorMessage = none ∧
      (hidePanel s o).currentRequestId = none ∧
      (hidePanel s o).panelMode =
        (if s.currentRequestId.isSome then PanelMode.preview else PanelMode.idle) := by
  intro s o ho
  by_cases hs : s.currentRequestId.isSome
  · cases o with
    | hang => exact absurd rfl ho
    | ok => simp [hidePanel, hs, syncHide]
    | rejected => simp [hidePanel, hs, syncHide]
  · have hnone : s.currentRequestId = none := by
      cases h : s.currentRequestId with
      | none => rfl
      | some r => exact absurd (by rw [h]; rfl) hs
    cases o <;> simp [hidePanel, hs, syncHide, hnone]

/-- C10 witness: hiding while "a" streams (cancel resolves) and hiding the
idle `testState`. -/
theorem c10_hide_panel_amended_witness :
    ((hidePanel reqState InvokeOutcome.ok).isVisible = false ∧
      (hidePanel reqState InvokeOutcome.ok).errorMessage = none ∧
      (hidePanel reqState InvokeOutcome.ok).currentRequestId = none ∧
      (hidePanel reqState InvokeOutcome.ok).panelMode =
        (if reqState.currentRequestId.isSome then PanelMode.preview else PanelMode.idle)) :=
  c10_hide_panel_amended reqState InvokeOutcome.ok (by decide)

/-! ## Part 4: round trip of the privacy shield -/

lemma digitsRevAux_parse : ∀ (f n : Nat), n ≤ f → parseRev (digitsRevAux f n) = n := by
  intro f
  induction f with
  | zero =>
    intro n hn
    have : n = 0 := Nat.le_zero.mp hn
    simp [this, digitsRevAux, parseRev]
  | succ f ih =>
    intro n hn
    rw [digitsRevAux]
    by_cases h0 : n = 0
    · simp [h0, parseRev]
    · rw [if_neg h0, parseRev]
      have hdiv : n / 10 ≤ f := by
        have h1 : n / 10 < n := Nat.div_lt_self (Nat.pos_of_ne_zero h0) (by omega)
        omega
      rw [ih (n / 10) hdiv]
      exact Nat.mod_add_div n 10

lemma parse_digitsRev (n : Nat) : parseRev (digitsRev n) = n :=
  digitsRevAux_parse n n le_rfl

lemma digitsRevAux_lt : ∀ (f n : Nat), ∀ d ∈ digitsRevAux f n, d < 10 := by
  intro f
  induction f with
  | zero => intro n d hd; simp [digitsRevAux] at hd
  | succ f ih =>
    intro n d hd
    rw [digitsRevAux] at hd
    by_cases h0 : n = 0
    · simp [h0] at hd
    · rw [if_neg h0] at hd
      rcases List.mem_cons.mp hd with h | h
      · rw [h]; exact Nat.mod_lt _ (by omega)
      · exact ih _ d h

lemma charDigit_digitChar : ∀ d < 10, charDigit (Nat.digitChar d) = d := by decide

lemma digitChar_not_special :
    ∀ d < 10, Nat.digitChar d ≠ '{' ∧ Nat.digitChar d ≠ '}' ∧ Nat.digitChar d ≠ '_' := by decide

lemma parseRev_append : ∀ (a b : List Nat),
    parseRev (a ++ b) = parseRev a + 10 ^ a.length * parseRev b := by
  intro a b
  induction a with
  | nil => simp [parseRev]
  | cons d a ih =>
    have h1 : parseRev ((d :: a) ++ b) = d + 10 * parseRev (a ++ b) := rfl
    have h2 : parseRev (d :: a) = d + 10 * parseRev a := rfl
    rw [h1, ih, h2, List.length_cons]
    ring

lemma parseRev_replicate_zero : ∀ z : Nat, parseRev (List.replicate z 0) = 0 := by
  intro z
  induction z with
  | zero => rfl
  | succ z ih => simp [List.replicate_succ, parseRev, ih]

lemma unpad_padNum (n : Nat) : unpad (padNum n) = n := by
  unfold unpad padNum
  rw [List.map_append, List.map_replicate]
  have hzero : charDigit '0' = 0 := rfl
  rw [hzero]
  have hmap : (decChars n).map charDigit = (digitsRev n).reverse := by
    unfold decChars
    rw [List.map_map]
    have : ∀ d ∈ (digitsRev n).reverse, (charDigit ∘ Nat.digitChar) d = id d := by
      intro d hd
      have hd' : d ∈ digitsRev n := List.mem_reverse.mp hd
      exact charDigit_digitChar d (digitsRevAux_lt n n d hd')
    rw [List.map_congr_left this, List.map_id]
  rw [hmap, List.reverse_append, List.reverse_reverse, List.reverse_replicate]
  rw [parseRev_append, parseRev_replicate_zero, parse_digitsRev]
  ring

lemma padNum_inj {a b : Nat} (h : padNum a = padNum b) : a = b := by
  have := congrArg unpad h
  rwa [unpad_padNum, unpad_padNum] at this

lemma catName_no_special :
    ∀ c : PIIType, '_' ∉ catName c ∧ '{' ∉ catName c ∧ '}' ∉ catName c := by
  intro c
  cases c <;> decide

lemma padNum_no_brace : ∀ (n : Nat), ∀ ch ∈ padNum n, ch ≠ '{' ∧ ch ≠ '}' := by
  intro n ch hch
  rcases List.mem_append.mp hch with h | h
  · have : ch = '0' := List.eq_of_mem_replicate h
    rw [this]; exact ⟨by decide, by decide⟩
  · unfold decChars at h
    rcases List.mem_map.mp h with ⟨d, hd, hdc⟩
    have hd10 : d < 10 := digitsRevAux_lt n n d (List.mem_reverse.mp hd)
    have := digitChar_not_special d hd10
    rw [← hdc]
    exact ⟨this.1, this.2.1⟩

lemma placeholderBody_ne_nil (c : PIIType) (n : Nat) : placeholderBody c n ≠ [] := by
  simp [placeholderBody]

lemma placeholderBody_no_brace (c : PIIType) (n : Nat) :
    '{' ∉ placeholderBody c n ∧ '}' ∉ placeholderBody c n := by
  constructor
  · intro h
    simp only [placeholderBody, List.mem_cons, List.mem_append] at h
    rcases h with h | h | h | h | h | h
    · exact absurd h (by decide)
    · exact absurd h (by decide)
    · exact absurd h (by decide)
    · exact (catName_no_special c).2.1 h
    · exact absurd h (by decide)
    · exact (padNum_no_brace n _ h).1 rfl
  · intro h
    simp only [placeholderBody, List.mem_cons, List.mem_append] at h
    rcases h with h | h | h | h | h | h
    · exact absurd h (by decide)
    · exact absurd h (by decide)
    · exact absurd h (by decide)
    · exact (catName_no_special c).2.2 h
    · exact absurd h (by decide)
    · exact (padNum_no_brace n _ h).2 rfl

lemma placeholder_wf (c : PIIType) (n : Nat) : WellFormedKey (placeholder c n) :=
  ⟨placeholderBody c n, rfl, placeholderBody_ne_nil c n,
   (placeholderBody_no_brace c n).1, (placeholderBody_no_brace c n).2⟩

lemma append_sep_inj :
    ∀ (a b r1 r2 : List Char), '_' ∉ a → '_' ∉ b →
      a ++ '_' :: r1 = b ++ '_' :: r2 → a = b ∧ r1 = r2 := by
  intro a
  induction a with
  | nil =>
    intro b r1 r2 _ hb h
    cases b with
    | nil => simpa using h
    | cons d b' =>
      simp only [List.nil_append, List.cons_append, List.cons.injEq] at h
      exact absurd (List.mem_cons_self d b') (h.1 ▸ hb)
  | cons c a' ih =>
    intro b r1 r2 ha hb h
    cases b with
    | nil =>
      simp only [List.nil_append, List.cons_append, List.cons.injEq] at h
      exact absurd (List.mem_cons_self c a') (h.1 ▸ ha)
    | cons d b' =>
      simp only [List.cons_append, List.cons.injEq] at h
      have ha' : '_' ∉ a' := fun hh => ha (List.mem_cons_of_mem c hh)
      have hb' : '_' ∉ b' := fun hh => hb (List.mem_cons_of_mem d hh)
      obtain ⟨h1, h2⟩ := ih b' r1 r2 ha' hb' h.2
      exact ⟨by rw [h.1, h1], h2⟩

lemma placeholder_num_inj {c1 c2 : PIIType} {n1 n2 : Nat}
    (h : placeholder c1 n1 = placeholder c2 n2) : n1 = n2 := by
  unfold placeholder at h
  simp only [List.cons.injEq, true_and] at h
  have hbody : placeholderBody c1 n1 = placeholderBody c2 n2 :=
    List.append_cancel_right h
  unfold placeholderBody at hbody
  simp only [List.cons.injEq, true_and] at hbody
  obtain ⟨-, hpad⟩ := append_sep_inj (catName c1) (catName c2) (padNum n1) (padNum n2)
    (catName_no_special c1).1 (catName_no_special c2).1 hbody
  exact padNum_inj hpad

lemma pre_split {a b c : List Char} (h : a <+: b ++ c) :
    a <+: b ∨ (b <+: a ∧ a.drop b.length <+: c) := by
  by_cases hl : a.length ≤ b.length
  · exact Or.inl (List.prefix_of_prefix_length_le h (List.prefix_append b c) hl)
  · push_neg at hl
    rcases h with ⟨w, hw⟩
    have hb : b = a.take b.length := by
      have h1 : (a ++ w).take b.length = a.take b.length :=
        List.take_append_of_le_length (le_of_lt hl)
      have h2 : (b ++ c).take b.length = b := List.take_left b c
      rw [← hw] at h2
      rw [h1] at h2
      exact h2.symm
    refine Or.inr ⟨⟨a.drop b.length, ?_⟩, ⟨w, ?_⟩⟩
    · conv_rhs => rw [← List.take_append_drop b.length a]
      rw [← hb]
    · have h3 : (a ++ w).drop b.length = a.drop b.length ++ w :=
        List.drop_append_of_le_length (le_of_lt hl)
      have h4 : (b ++ c).drop b.length = c := List.drop_left b c
      rw [← hw] at h4
      rw [h3] at h4
      exact h4

lemma braces_get_self (b : List Char) (h : b.length < (b ++ ['}', '}']).length) :
    (b ++ ['}', '}']).get ⟨b.length, h⟩ = '}' := by
  induction b with
  | nil => rfl
  | cons c b ih => exact ih (by simp)

lemma wf_no_brace_after (b : List Char) (hbo : '{' ∉ b) :
    ∀ (i : Nat) (hi : i < ('{' :: '{' :: (b ++ ['}', '}'])).length), 2 ≤ i →
      ('{' :: '{' :: (b ++ ['}', '}'])).get ⟨i, hi⟩ ≠ '{' := by
  intro i hi h2
  obtain ⟨m, rfl⟩ : ∃ m, i = m + 2 := ⟨i - 2, by omega⟩
  have hm : m < b.length + 2 := by
    simp only [List.length_cons, List.length_append, List.length_nil] at hi
    omega
  have hmb2 : m < (b ++ ['}', '}']).length := by simp; omega
  have hx : ('{' :: '{' :: (b ++ ['}', '}'])).get ⟨m + 2, hi⟩ =
      (b ++ ['}', '}']).get ⟨m, hmb2⟩ := rfl
  rw [hx]
  intro hcontra
  by_cases hmb : m < b.length
  · have hy : (b ++ ['}', '}']).get ⟨m, hmb2⟩ = b.get ⟨m, hmb⟩ :=
      List.getElem_append_left hmb
    rw [hy] at hcontra
    exact hbo (hcontra ▸ List.get_mem b m hmb)
  · have hge : b.length ≤ m := le_of_not_lt hmb
    have hidx : m - b.length < (['}', '}'] : List Char).length := by
      simp only [List.length_cons, List.length_nil]
      omega
    have hy : (b ++ ['}', '}']).get ⟨m, hmb2⟩ = ['}', '}'].get ⟨m - b.length, hidx⟩ :=
      List.getElem_append_right hge
    rw [hy] at hcontra
    have hmem : '{' ∈ (['}', '}'] : List Char) := hcontra ▸ List.get_mem _ _ hidx
    exact absurd hmem (by decide)

lemma wf_key_not_pre {k1 k2 : List Char} (r : List Char)
    (h1 : WellFormedKey k1) (h2 : WellFormedKey k2) (hne : k1 ≠ k2) :
    ¬ k1 <+: k2 ++ r := by
  obtain ⟨b1, hk1, hb1ne, hb1o, hb1c⟩ := h1
  obtain ⟨b2, hk2, hb2ne, hb2o, hb2c⟩ := h2
  intro hpre
  rcases hpre with ⟨w, hw⟩
  subst hk1
  subst hk2
  simp only [List.cons_append, List.cons.injEq, true_and] at hw
  rcases Nat.lt_trichotomy b1.length b2.length with hlt | heq | hgt
  · have hi1 : b1.length < (b1 ++ ['}', '}']).length := by simp
    have hiw : b1.length < ((b1 ++ ['}', '}']) ++ w).length := by simp
    have hiw2 : b1.length < ((b2 ++ ['}', '}']) ++ r).length := by simp; omega
    have hi2 : b1.length < (b2 ++ ['}', '}']).length := by simp; omega
    have echain : (b1 ++ ['}', '}']).get ⟨b1.length, hi1⟩ = b2.get ⟨b1.length, hlt⟩ := by
      calc (b1 ++ ['}', '}']).get ⟨b1.length, hi1⟩
          = ((b1 ++ ['}', '}']) ++ w).get ⟨b1.length, hiw⟩ :=
            (List.getElem_append_left hi1).symm
        _ = ((b2 ++ ['}', '}']) ++ r).get ⟨b1.length, hiw2⟩ :=
            List.getElem_of_eq hw hiw
        _ = (b2 ++ ['}', '}']).get ⟨b1.length, hi2⟩ := List.getElem_append_left hi2
        _ = b2.get ⟨b1.length, hlt⟩ := List.getElem_append_left hlt
    have hx : b2.get ⟨b1.length, hlt⟩ = '}' := by
      rw [← echain]
      exact braces_get_self b1 hi1
    exact hb2c (hx ▸ List.get_mem b2 b1.length hlt)
  · have hu : b1 ++ ['}', '}'] = b2 ++ ['}', '}'] := by
      have hlen : (b1 ++ ['}', '}']).length = (b2 ++ ['}', '}']).length := by simp [heq]
      have h1x : ((b1 ++ ['}', '}']) ++ w).take (b1 ++ ['}', '}']).length =
          b1 ++ ['}', '}'] := List.take_left _ w
      have h2x : ((b2 ++ ['}', '}']) ++ r).take (b2 ++ ['}', '}']).length =
          b2 ++ ['}', '}'] := List.take_left _ r
      rw [hw, hlen] at h1x
      exact h1x.symm.trans h2x
    have hb : b1 = b2 := List.append_cancel_right hu
    exact hne (by rw [hb])
  · have hi2 : b2.length < (b2 ++ ['}', '}']).length := by simp
    have hiw : b2.length < ((b1 ++ ['}', '}']) ++ w).length := by simp; omega
    have hiw2 : b2.length < ((b2 ++ ['}', '}']) ++ r).length := by simp
    have hi1 : b2.length < (b1 ++ ['}', '}']).length := by simp; omega
    have echain : b1.get ⟨b2.length, hgt⟩ = (b2 ++ ['}', '}']).get ⟨b2.length, hi2⟩ := by
      calc b1.get ⟨b2.length, hgt⟩
          = (b1 ++ ['}', '}']).get ⟨b2.length, hi1⟩ :=
            (List.getElem_append_left hgt).symm
        _ = ((b1 ++ ['}', '}']) ++ w).get ⟨b2.length, hiw⟩ :=
            (List.getElem_append_left hi1).symm
        _ = ((b2 ++ ['}', '}']) ++ r).get ⟨b2.length, hiw2⟩ :=
            List.getElem_of_eq hw hiw
        _ = (b2 ++ ['}', '}']).get ⟨b2.length, hi2⟩ := List.getElem_append_left hi2
    have hx : b1.get ⟨b2.length, hgt⟩ = '}' := by
      rw [echain]
      exact braces_get_self b2 hi2
    exact hb1c (hx ▸ List.get_mem b1 b2.length hgt)

lemma no_key_in_segment (t k : List Char) (hk : WellFormedKey k) (hinf : ¬ k <:+: t)
    (j n : Nat) (hjn : j + n ≤ t.length) (hn : 1 ≤ n) (s : List Char)
    (hs : s = [] ∨ ∃ ph r, s = ph ++ r ∧ WellFormedKey ph) :
    ¬ k <+: ((t.drop j).take n ++ s) := by
  intro hpre
  have hlens : ((t.drop j).take n).length = n := by
    rw [List.length_take, List.length_drop]
    omega
  have kinf : ∀ m : Nat, ¬ k <+: t.drop m := by
    intro m hm
    have ha : k <:+: t.drop m := hm.isInfix
    have hb : t.drop m <:+: t := List.IsSuffix.isInfix (List.drop_suffix m t)
    exact hinf (ha.trans hb)
  have hslice : (t.drop j).take n <+: t.drop j :=
    ⟨(t.drop j).drop n, List.take_append_drop n (t.drop j)⟩
  rcases pre_split hpre with hps | ⟨hsp, hdrop⟩
  · exact kinf j (hps.trans hslice)
  · rw [hlens] at hdrop
    by_cases hu : k.drop n = []
    · have hkl : k.length ≤ n := by
        by_contra hh
        push_neg at hh
        have hx : (k.drop n).length = k.length - n := List.length_drop n k
        rw [hu] at hx
        simp at hx
        omega
      have hk_eq : (t.drop j).take n = k :=
        List.IsPrefix.eq_of_length_le hsp (by rw [hlens]; exact hkl)
      exact kinf j (hk_eq ▸ hslice)
    · obtain ⟨bk, hkk, hbkne, hbko, hbkc⟩ := hk
      subst hkk
      have hklen : ('{' :: '{' :: (bk ++ ['}', '}'])).length = bk.length + 4 := by simp
      have hnk : n < ('{' :: '{' :: (bk ++ ['}', '}'])).length := by
        by_contra hh
        push_neg at hh
        exact hu (List.drop_eq_nil_of_le hh)
      rcases hs with rfl | ⟨ph, r, rfl, hphwf⟩
      · exact hu (List.prefix_nil.mp hdrop)
      · obtain ⟨bp, hph, hbpne, hbpo, hbpc⟩ := hphwf
        subst hph
        have hlu0 : 0 < (('{' :: '{' :: (bk ++ ['}', '}'])).drop n).length := by
          rw [List.length_drop]
          omega
        have hpr0 : 0 < (('{' :: '{' :: (bp ++ ['}', '}'])) ++ r).length := by simp
        have hn0 : n + 0 < ('{' :: '{' :: (bk ++ ['}', '}'])).length := by omega
        have e1 : (('{' :: '{' :: (bk ++ ['}', '}'])).drop n).get ⟨0, hlu0⟩ =
            (('{' :: '{' :: (bp ++ ['}', '}'])) ++ r).get ⟨0, hpr0⟩ :=
          List.IsPrefix.getElem hdrop hlu0
        have e2 : (('{' :: '{' :: (bk ++ ['}', '}'])).drop n).get ⟨0, hlu0⟩ =
            ('{' :: '{' :: (bk ++ ['}', '}'])).get ⟨n + 0, hn0⟩ :=
          List.getElem_drop _
        have e3 : (('{' :: '{' :: (bp ++ ['}', '}'])) ++ r).get ⟨0, hpr0⟩ = '{' := rfl
        have h0 : ('{' :: '{' :: (bk ++ ['}', '}'])).get ⟨n, hnk⟩ = '{' :=
          e2.symm.trans (e1.trans e3)
        rcases Nat.lt_or_ge n 2 with hn2 | hn2
        · have hn1 : n = 1 := by omega
          subst hn1
          have hlu1 : 1 < (('{' :: '{' :: (bk ++ ['}', '}'])).drop 1).length := by
            rw [List.length_drop]
            simp only [hklen]
            omega
          have hpr1 : 1 < (('{' :: '{' :: (bp ++ ['}', '}'])) ++ r).length := by simp
          have h11 : 1 + 1 < ('{' :: '{' :: (bk ++ ['}', '}'])).length := by simp
          have f1 : (('{' :: '{' :: (bk ++ ['}', '}'])).drop 1).get ⟨1, hlu1⟩ =
              (('{' :: '{' :: (bp ++ ['}', '}'])) ++ r).get ⟨1, hpr1⟩ :=
            List.IsPrefix.getElem hdrop hlu1
          have f2 : (('{' :: '{' :: (bk ++ ['}', '}'])).drop 1).get ⟨1, hlu1⟩ =
              ('{' :: '{' :: (bk ++ ['}', '}'])).get ⟨1 + 1, h11⟩ :=
            List.getElem_drop _
          have f3 : (('{' :: '{' :: (bp ++ ['}', '}'])) ++ r).get ⟨1, hpr1⟩ = '{' := rfl
          have hk2 : ('{' :: '{' :: (bk ++ ['}', '}'])).get ⟨1 + 1, h11⟩ = '{' :=
            f2.symm.trans (f1.trans f3)
          exact wf_no_brace_after bk hbko (1 + 1) h11 (by omega) hk2
        · exact wf_no_brace_after bk hbko n hnk hn2 h0

lemma findKey_eq_none (mp : List (List Char × List Char)) (s : List Char)
    (h : ∀ kv ∈ mp, ¬ kv.1 <+: s) : findKey mp s = none := by
  induction mp with
  | nil => rfl
  | cons kv rest ih =>
    rw [findKey]
    have h' : ¬ kv.1.isPrefixOf s = true := by
      rw [ List.isPrefixOf_iff_prefix]
      exact h kv (List.mem_cons_self kv rest)
    rw [if_neg h']
    exact ih (fun kv' hkv' => h kv' (List.mem_cons_of_mem kv hkv'))

lemma findKey_eq_some (mp : List (List Char × List Char)) (s : List Char)
    (k v : List Char) (hmem : (k, v) ∈ mp) (hpre : k <+: s)
    (huniq : ∀ kv ∈ mp, kv.1 <+: s → kv = (k, v)) : findKey mp s = some (k, v) := by
  induction mp with
  | nil => exact absurd hmem (List.not_mem_nil _)
  | cons kv rest ih =>
    rw [findKey]
    by_cases hh : kv.1.isPrefixOf s = true
    · rw [if_pos hh]
      have hx : kv = (k, v) := huniq kv (List.mem_cons_self kv rest)
        (( List.isPrefixOf_iff_prefix).mp hh)
      rw [hx]
    · rw [if_neg hh]
      have hkmem : (k, v) ∈ rest := by
        rcases List.mem_cons.mp hmem with hcase | hcase
        · exfalso
          apply hh
          rw [ List.isPrefixOf_iff_prefix]
          rw [← hcase]
          exact hpre
        · exact hcase
      exact ih hkmem (fun kv' hkv' h' => huniq kv' (List.mem_cons_of_mem kv hkv') h')

lemma restoreAux_nil (mp : List (List Char × List Char)) (f : Nat) :
    restoreAux mp f [] = [] := by
  cases f <;> rfl

lemma restoreAux_no_key (mp : List (List Char × List Char)) (c : Char) (cs : List Char)
    (f : Nat) (hfind : findKey mp (c :: cs) = none) :
    restoreAux mp (f + 1) (c :: cs) = c :: restoreAux mp f cs := by
  simp only [restoreAux, hfind]

lemma restoreAux_key_hit (mp : List (List Char × List Char)) (k v rest : List Char) (f : Nat)
    (hne : k ≠ []) (hfind : findKey mp (k ++ rest) = some (k, v)) :
    restoreAux mp (f + 1) (k ++ rest) = v ++ restoreAux mp f rest := by
  cases k with
  | nil => exact absurd rfl hne
  | cons c ck =>
    have hfind' : findKey mp (c :: (ck ++ rest)) = some (c :: ck, v) := hfind
    show restoreAux mp (f + 1) (c :: (ck ++ rest)) = v ++ restoreAux mp f rest
    simp only [restoreAux, hfind']
    have hdrop : (c :: (ck ++ rest)).drop (c :: ck).length = rest := by
      show ((c :: ck) ++ rest).drop (c :: ck).length = rest
      exact List.drop_left _ _
    rw [hdrop]

lemma restore_skip_slice (t : List Char) (mp : List (List Char × List Char))
    (hwf : ∀ kv ∈ mp, WellFormedKey kv.1) (hninf : ∀ kv ∈ mp, ¬ kv.1 <:+: t)
    (s : List Char) (hs : s = [] ∨ ∃ ph r, s = ph ++ r ∧ WellFormedKey ph) :
    ∀ (n j fuel : Nat), j + n ≤ t.length → n ≤ fuel →
      restoreAux mp fuel ((t.drop j).take n ++ s) =
        (t.drop j).take n ++ restoreAux mp (fuel - n) s := by
  intro n
  induction n with
  | zero =>
    intro j fuel _ _
    simp
  | succ n ih =>
    intro j fuel hjn hnf
    have hj : j < t.length := by omega
    cases fuel with
    | zero => omega
    | succ f =>
      have hfind : findKey mp ((t.drop j).take (n + 1) ++ s) = none :=
        findKey_eq_none mp _ (fun kv hkv =>
          no_key_in_segment t kv.1 (hwf kv hkv) (hninf kv hkv) j (n + 1) hjn
            (by omega) s hs)
      have hslice : (t.drop j).take (n + 1) = t[j] :: ((t.drop (j + 1)).take n) := by
        rw [List.drop_eq_getElem_cons hj, List.take_succ_cons]
      have hfind' : findKey mp (t[j] :: ((t.drop (j + 1)).take n ++ s)) = none := by
        rw [← List.cons_append, ← hslice]
        exact hfind
      rw [hslice, List.cons_append,
        restoreAux_no_key mp _ _ f hfind', List.cons_append]
      have hih := ih (j + 1) f (by omega) (by omega)
      rw [hih]
      congr 1
      congr 2
      omega

lemma take_drop_glue (t : List Char) (a b : Nat) (hab : a ≤ b) :
    (t.drop a).take (b - a) ++ t.drop b = t.drop a := by
  have h : t.drop b = (t.drop a).drop (b - a) := by
    rw [List.drop_drop]
    congr 1
    omega
  rw [h, List.take_append_drop]

lemma maskAux_keys (t : List Char) :
    ∀ (ms : List PIIMatch) (pos k : Nat), ∀ kv ∈ (maskAux t pos ms k).2,
      ∃ c n, k ≤ n ∧ kv.1 = placeholder c n := by
  intro ms
  induction ms with
  | nil =>
    intro pos k kv hkv
    simp [maskAux] at hkv
  | cons m ms ih =>
    intro pos k kv hkv
    simp only [maskAux] at hkv
    rcases List.mem_cons.mp hkv with h | h
    · exact ⟨m.cat, k, le_rfl, by rw [h]⟩
    · obtain ⟨c, n, hn, hkv'⟩ := ih m.stop (k + 1) kv h
      exact ⟨c, n, by omega, hkv'⟩

lemma maskAux_keys_distinct (t : List Char) :
    ∀ (ms : List PIIMatch) (pos k : Nat),
      ((maskAux t pos ms k).2).Pairwise (fun a b => a.1 ≠ b.1) := by
  intro ms
  induction ms with
  | nil =>
    intro pos k
    simp [maskAux]
  | cons m ms ih =>
    intro pos k
    simp only [maskAux]
    refine List.Pairwise.cons ?_ (ih m.stop (k + 1))
    intro kv hkv heq
    obtain ⟨c, n, hn, hkv1⟩ := maskAux_keys t ms m.stop (k + 1) kv hkv
    rw [hkv1] at heq
    have := placeholder_num_inj heq
    omega

lemma distinct_unique_val (mp : List (List Char × List Char))
    (h : mp.Pairwise (fun a b => a.1 ≠ b.1)) (k v1 v2 : List Char)
    (h1 : (k, v1) ∈ mp) (h2 : (k, v2) ∈ mp) : v1 = v2 := by
  induction mp with
  | nil => exact absurd h1 (List.not_mem_nil _)
  | cons kv rest ih =>
    obtain ⟨hhead, htail⟩ := List.pairwise_cons.mp h
    rcases List.mem_cons.mp h1 with ha | ha <;> rcases List.mem_cons.mp h2 with hb | hb
    · have hx : (k, v1) = (k, v2) := ha.trans hb.symm
      exact (Prod.mk.injEq _ _ _ _ ▸ hx).2
    · exfalso
      have hx := hhead (k, v2) hb
      rw [← ha] at hx
      exact hx rfl
    · exfalso
      have hx := hhead (k, v1) ha
      rw [← hb] at hx
      exact hx rfl
    · exact ih htail ha hb

lemma mask_restore_aux (t : List Char) (mp : List (List Char × List Char))
    (hwf : ∀ kv ∈ mp, WellFormedKey kv.1)
    (hninf : ∀ kv ∈ mp, ¬ kv.1 <:+: t)
    (hdist : mp.Pairwise (fun a b => a.1 ≠ b.1)) :
    ∀ (ms : List PIIMatch) (pos k fuel : Nat),
      validMatches t pos ms = true →
      pos ≤ t.length →
      (∀ kv ∈ (maskAux t pos ms k).2, kv ∈ mp) →
      (maskAux t pos ms k).1.length ≤ fuel →
      restoreAux mp fuel (maskAux t pos ms k).1 = t.drop pos := by
  intro ms
  induction ms with
  | nil =>
    intro pos k fuel _ hpos _ hfuel
    simp only [maskAux] at hfuel ⊢
    have harg : t.drop pos = (t.drop pos).take (t.length - pos) ++ [] := by
      rw [List.append_nil]
      exact (List.take_of_length_le (by rw [List.length_drop])).symm
    rw [harg, restore_skip_slice t mp hwf hninf [] (Or.inl rfl) (t.length - pos) pos fuel
      (by omega) (by rw [List.length_drop] at hfuel; omega)]
    rw [restoreAux_nil, List.append_nil]
  | cons m ms ih =>
    intro pos k fuel hv hpos hmem hfuel
    simp only [validMatches, Bool.and_eq_true, decide_eq_true_eq] at hv
    obtain ⟨⟨⟨hps, hlt⟩, hstop⟩, hrest⟩ := hv
    simp only [maskAux] at hmem hfuel ⊢
    set ph := placeholder m.cat k with hph
    set val := (t.drop m.start).take (m.stop - m.start) with hval
    set masked2 := (maskAux t m.stop ms (k + 1)).1 with hm2
    have hph_mem : (ph, val) ∈ mp := hmem (ph, val) (List.mem_cons_self _ _)
    have hmem' : ∀ kv ∈ (maskAux t m.stop ms (k + 1)).2, kv ∈ mp :=
      fun kv hkv => hmem kv (List.mem_cons_of_mem _ hkv)
    have hseglen : ((t.drop pos).take (m.start - pos)).length = m.start - pos := by
      rw [List.length_take, List.length_drop]
      omega
    have hphlen : 1 ≤ ph.length := by rw [hph]; simp [placeholder]
    have hphwf : WellFormedKey ph := by rw [hph]; exact placeholder_wf m.cat k
    have hfuel' : (m.start - pos) + ph.length + masked2.length ≤ fuel := by
      simp only [List.length_append, hseglen] at hfuel
      omega
    rw [List.append_assoc]
    rw [restore_skip_slice t mp hwf hninf (ph ++ masked2)
      (Or.inr ⟨ph, masked2, rfl, hphwf⟩) (m.start - pos) pos fuel (by omega) (by omega)]
    obtain ⟨f2, hf2⟩ : ∃ f2, fuel - (m.start - pos) = f2 + 1 := ⟨fuel - (m.start - pos) - 1, by omega⟩
    have hf2ge : masked2.length ≤ f2 := by omega
    have hkeyne : ph ≠ [] := by rw [hph]; simp [placeholder]
    have hfind : findKey mp (ph ++ masked2) = some (ph, val) := by
      apply findKey_eq_some mp _ ph val hph_mem ⟨masked2, rfl⟩
      rintro ⟨k1, v1⟩ hkv hpre
      by_cases hkeq : k1 = ph
      · subst hkeq
        have hv2 : v1 = val := distinct_unique_val mp hdist ph v1 val hkv hph_mem
        rw [hv2]
      · exact absurd hpre (wf_key_not_pre masked2 (hwf (k1, v1) hkv) hphwf hkeq)
    rw [hf2, restoreAux_key_hit mp ph val masked2 f2 hkeyne hfind]
    rw [ih m.stop (k + 1) f2 hrest (by omega) hmem' hf2ge]
    rw [hval, take_drop_glue t m.start m.stop (by omega)]
    exact take_drop_glue t pos m.start (by omega)

/-- C8 counterexample: the round trip fails, as stated for *every* text, on a
text that itself contains the very placeholder token the mask call generates:
masking the phone number in `c8T` produces a second copy of the token that
already opens `c8T`, and restore (which replaces every mapped placeholder
occurrence) rewrites both, so the original text is not reproduced even though
the masked text was never modified. -/
theorem c8_roundtrip_cex :
    validMatches c8T 0 c8Ms = true ∧
    restore_pii (mask_pii c8T c8Ms).1 (mask_pii c8T c8Ms).2 ≠ c8T :=
  ⟨by decide, by decide⟩

/-- C8 (amended): for every text `T` and every valid scan result of `T`, if no
placeholder key produced by the mask call occurs as a substring of `T` itself,
then restoring the masked text with the mapping produced by the same mask call
reproduces `T` exactly (the masked text being passed unmodified). -/
theorem c8_roundtrip_amended (t : List Char) (ms : List PIIMatch)
    (hv : validMatches t 0 ms = true)
    (hno : ∀ kv ∈ (mask_pii t ms).2, ¬ kv.1 <:+: t) :
    restore_pii (mask_pii t ms).1 (mask_pii t ms).2 = t := by
  have hwf : ∀ kv ∈ (mask_pii t ms).2, WellFormedKey kv.1 := by
    intro kv hkv
    obtain ⟨c, n, -, hk⟩ := maskAux_keys t ms 0 0 kv hkv
    rw [hk]
    exact placeholder_wf c n
  have hdist := maskAux_keys_distinct t ms 0 0
  have hx := mask_restore_aux t (mask_pii t ms).2 hwf hno hdist ms 0 0
    (mask_pii t ms).1.length hv (Nat.zero_le _) (fun _ hkv => hkv) le_rfl
  rw [List.drop_zero] at hx
  exact hx

/-- C8 witness: the spec §8 scenario text with its Email and Phone matches
round-trips exactly. -/
theorem c8_roundtrip_amended_witness :
    validMatches c8wT 0 c8wMs = true ∧
    restore_pii (mask_pii c8wT c8wMs).1 (mask_pii c8wT c8wMs).2 = c8wT :=
  ⟨by decide, c8_roundtrip_amended c8wT c8wMs (by decide) (by decide)⟩
